import Mathlib

/-!
# Shallow embedding of the simple-fsm engine

The Go sources embedded here:
* `fsm.go` — workflow definition (`State`, `Event`, `Transition`), the engine
  (`New`, `Start`, `Trigger`, `GetState`, `GetTransitions`, `CanTrigger`,
  `GetNextState`, `findNextState`) and the validation helpers;
* the in-memory storage (`MemoryStorage` with `SaveTransition`,
  `GetCurrentState`, `GetTransitions`).

Modelling conventions:
* Go strings are `String`; `time.Time` timestamps are `Nat` instants, and the
  value of `time.Now().UTC()` inside `Start`/`Trigger` is an explicit `now`
  parameter;
* the storage is pure: an operation takes the `MemoryStorage` value and
  returns the updated storage together with the Go return values;
* Go `error` results become `Except Err`, with one `Err` constructor per
  distinct error the sources can produce (sentinel errors and the `fmt.Errorf`
  wrappings that carry a `%w`-wrapped inner error);
* the Go `FSM` struct holds a `Storage` interface value; here the definition
  part (`states`, `events`, `transitions`) is the `FSM` structure and the
  storage is threaded explicitly through each operation. `New` receives the
  storage as an `Option` so that the Go `storage == nil` check is expressible.
-/

namespace SimpleFsm

/-- `State` from fsm.go: a named state, equality by name. -/
structure State where
  Name : String
deriving DecidableEq, Repr

/-- `Event` from fsm.go: a named event, equality by name. -/
structure Event where
  Name : String
deriving DecidableEq, Repr

/-- `Transition` from fsm.go: a (from, to, event) edge plus audit fields. -/
structure Transition where
  From : State
  To : State
  Event : Event
  CreatedAt : Nat
  CreatedBy : String
deriving DecidableEq, Repr

/-- `Entity` from fsm.go: a (type, id) pair identifying a tracked subject. -/
structure Entity where
  type : String
  ID : String
deriving DecidableEq, Repr

/-- `EntityTransition` from fsm.go: a transition record applied to an entity. -/
structure EntityTransition where
  Entity : Entity
  Transition : Transition
deriving DecidableEq, Repr

/-- The distinct error values the embedded sources can return.  Constructors
`invalidFromStateInTransition`, `invalidToStateInTransition`,
`invalidEventInTransition` and `failedToGetCurrentState` model the
`fmt.Errorf("...: %w", err)` wrappings in `New` and `Trigger`. -/
inductive Err where
  | invalidState (name : String)
  | invalidEvent (name : String)
  | invalidTransition (fromName eventName : String)
  | entityNotFound
  | noStatesDefined
  | noEventsDefined
  | noTransitionsDefined
  | storageNil
  | invalidFromStateInTransition (e : Err)
  | invalidToStateInTransition (e : Err)
  | invalidEventInTransition (e : Err)
  | failedToGetCurrentState (e : Err)
deriving DecidableEq, Repr

/-- Whether an error is (a wrapping-free) `ErrInvalidTransition`. -/
def Err.isInvalidTransition : Err → Bool
  | .invalidTransition _ _ => true
  | _ => false

/-- The entity-key comparison used throughout the memory storage:
`t.Entity.Type == entity.Type && t.Entity.ID == entity.ID`. -/
def sameEntity (a b : Entity) : Bool :=
  a.type == b.type && a.ID == b.ID

/-- `MemoryStorage` from the in-memory backend: an append-only list of
records (the `sync.RWMutex` only guards the Go slice and has no pure
counterpart). -/
structure MemoryStorage where
  transitions : List EntityTransition
deriving DecidableEq, Repr

/-- `NewMemoryStorage`: empty record list. -/
def NewMemoryStorage : MemoryStorage := ⟨[]⟩

/-- `MemoryStorage.SaveTransition`: append one record; always succeeds
(the Go method unconditionally returns nil). -/
def MemoryStorage.SaveTransition (m : MemoryStorage) (et : EntityTransition) :
    MemoryStorage :=
  ⟨m.transitions ++ [et]⟩

/-- `MemoryStorage.GetCurrentState`: scan the records backward (the Go loop
runs `i` from `len-1` down to `0`) and return the `To` state of the first
record whose entity matches; no match means `ErrEntityNotFound`. -/
def MemoryStorage.GetCurrentState (m : MemoryStorage) (entity : Entity) :
    Except Err State :=
  match m.transitions.reverse.find? (fun t => sameEntity t.Entity entity) with
  | some t => .ok t.Transition.To
  | none => .error .entityNotFound

/-- `MemoryStorage.GetTransitions`: all records whose entity matches, in
stored (append) order; never fails. -/
def MemoryStorage.GetTransitions (m : MemoryStorage) (entity : Entity) :
    Except Err (List EntityTransition) :=
  .ok (m.transitions.filter (fun t => sameEntity t.Entity entity))

/-- `validateState` from fsm.go: succeed iff some declared state has the same
name. -/
def validateState (state : State) (validStates : List State) : Except Err Unit :=
  if validStates.any (fun s => s.Name == state.Name) then .ok ()
  else .error (.invalidState state.Name)

/-- `validateEvent` from fsm.go: succeed iff some declared event has the same
name. -/
def validateEvent (event : Event) (validEvents : List Event) : Except Err Unit :=
  if validEvents.any (fun e => e.Name == event.Name) then .ok ()
  else .error (.invalidEvent event.Name)

/-- `FSM` from fsm.go, without the storage field (storage is threaded
explicitly through the operations). -/
structure FSM where
  states : List State
  events : List Event
  transitions : List Transition
deriving DecidableEq, Repr

/-- The transition-validation loop inside `New`: for each declared transition,
check its from-state, to-state and event in that order, wrapping the first
failure like the corresponding `fmt.Errorf` call. -/
def validateTransitions : List Transition → List State → List Event → Except Err Unit
  | [], _, _ => .ok ()
  | t :: ts, states, events =>
    match validateState t.From states with
    | .error e => .error (.invalidFromStateInTransition e)
    | .ok () =>
      match validateState t.To states with
      | .error e => .error (.invalidToStateInTransition e)
      | .ok () =>
        match validateEvent t.Event events with
        | .error e => .error (.invalidEventInTransition e)
        | .ok () => validateTransitions ts states events

/-- `New` from fsm.go: emptiness checks on states, events and transitions,
the nil-storage check, then transition validation; on success the engine
holds exactly the given definition. -/
def New (states : List State) (events : List Event)
    (transitions : List Transition) (storage : Option MemoryStorage) :
    Except Err FSM :=
  if states.length == 0 then .error .noStatesDefined
  else if events.length == 0 then .error .noEventsDefined
  else if transitions.length == 0 then .error .noTransitionsDefined
  else if storage.isNone then .error .storageNil
  else
    match validateTransitions transitions states events with
    | .error e => .error e
    | .ok () => .ok { states := states, events := events, transitions := transitions }

/-- The scan loop of `FSM.findNextState`: walk the declared transitions in
declaration order; the first entry whose from-state name and event name both
match decides the result; no match is `ErrInvalidTransition`. -/
def findNextStateLoop (s : State) (event : Event) :
    List Transition → Except Err State
  | [] => .error (.invalidTransition s.Name event.Name)
  | t :: ts =>
    if t.From.Name == s.Name && t.Event.Name == event.Name then .ok t.To
    else findNextStateLoop s event ts

/-- `FSM.findNextState`: first-match scan over the declared transitions. -/
def FSM.findNextState (f : FSM) (s : State) (event : Event) : Except Err State :=
  findNextStateLoop s event f.transitions

/-- `FSM.GetNextState`: the pure lookup, delegating to `findNextState`. -/
def FSM.GetNextState (f : FSM) (currentState : State) (event : Event) :
    Except Err State :=
  f.findNextState currentState event

/-- `FSM.Start`: validate the initial state, then append a genesis record
(from = empty-named state, event = "start", to = initialState). -/
def FSM.Start (f : FSM) (m : MemoryStorage) (entity : Entity)
    (initialState : State) (createdBy : String) (now : Nat) :
    MemoryStorage × Except Err Unit :=
  match validateState initialState f.states with
  | .error e => (m, .error e)
  | .ok () =>
    let et : EntityTransition :=
      { Entity := entity
        Transition :=
          { From := { Name := "" }
            To := initialState
            Event := { Name := "start" }
            CreatedAt := now
            CreatedBy := createdBy } }
    (m.SaveTransition et, .ok ())

/-- `FSM.Trigger`: read the current state (wrapping a storage error), validate
the event, look up the next state, then append the record. -/
def FSM.Trigger (f : FSM) (m : MemoryStorage) (entity : Entity)
    (event : Event) (createdBy : String) (now : Nat) :
    MemoryStorage × Except Err Unit :=
  match m.GetCurrentState entity with
  | .error e => (m, .error (.failedToGetCurrentState e))
  | .ok currentState =>
    match validateEvent event f.events with
    | .error e => (m, .error e)
    | .ok () =>
      match f.findNextState currentState event with
      | .error e => (m, .error e)
      | .ok nextState =>
        let et : EntityTransition :=
          { Entity := entity
            Transition :=
              { From := currentState
                To := nextState
                Event := event
                CreatedAt := now
                CreatedBy := createdBy } }
        (m.SaveTransition et, .ok ())

/-- `FSM.GetState`: delegate to the storage. -/
def FSM.GetState (f : FSM) (m : MemoryStorage) (entity : Entity) :
    Except Err State :=
  m.GetCurrentState entity

/-- `FSM.GetTransitions`: delegate to the storage. -/
def FSM.GetTransitions (f : FSM) (m : MemoryStorage) (entity : Entity) :
    Except Err (List EntityTransition) :=
  m.GetTransitions entity

/-- `FSM.CanTrigger`: read the current state, and report whether the lookup
succeeds; any error gives `false`. -/
def FSM.CanTrigger (f : FSM) (m : MemoryStorage) (entity : Entity)
    (event : Event) : Bool :=
  match m.GetCurrentState entity with
  | .error _ => false
  | .ok currentState =>
    match f.findNextState currentState event with
    | .error _ => false
    | .ok _ => true

/-- `FSM.GetAvailableEvents`: events of every declared transition leaving the
current state, in declaration order. -/
def FSM.GetAvailableEvents (f : FSM) (m : MemoryStorage) (entity : Entity) :
    Except Err (List Event) :=
  match m.GetCurrentState entity with
  | .error e => .error e
  | .ok currentState =>
    .ok ((f.transitions.filter (fun t => t.From.Name == currentState.Name)).map
      (fun t => t.Event))

/-- The records of one entity, in stored order: what the memory storage's
`GetTransitions` returns. -/
def recordsFor (m : MemoryStorage) (e : Entity) : List EntityTransition :=
  m.transitions.filter (fun t => sameEntity t.Entity e)

/-- Modelled from the spec's words for the shared lookup algorithm: "scan the
declared transition list in declaration order; return the first entry whose
`from` and `event` both equal the query; no match ⇒ *invalid transition*" —
stated via `List.find?`, to be compared with the source-translated
`findNextStateLoop`. -/
def lookupSpec (transitions : List Transition) (s : State) (ev : Event) :
    Except Err State :=
  match transitions.find? (fun t => t.From.Name == s.Name && t.Event.Name == ev.Name) with
  | some t => .ok t.To
  | none => .error (.invalidTransition s.Name ev.Name)

/-! ## Declaredness and well-formed definitions -/

/-- Whether a state's name is among the declared states (the test
`validateState` performs). -/
def stateDeclared (f : FSM) (s : State) : Bool :=
  f.states.any (fun x => x.Name == s.Name)

/-- Whether an event's name is among the declared events (the test
`validateEvent` performs). -/
def eventDeclared (f : FSM) (ev : Event) : Bool :=
  f.events.any (fun x => x.Name == ev.Name)

/-- The referential integrity `New` establishes: every declared transition's
from-state, to-state and event are declared. -/
def FSM.WellFormed (f : FSM) : Prop :=
  ∀ t ∈ f.transitions,
    stateDeclared f t.From = true ∧ stateDeclared f t.To = true ∧
      eventDeclared f t.Event = true

/-! ## Operation traces

A trace of entity-facing engine calls, with their `time.Now()` instants made
explicit, for stating history invariants (genesis records, timestamp order,
entity isolation). -/

/-- One mutating engine call with its inputs. -/
inductive Op where
  | start (entity : Entity) (initialState : State) (createdBy : String) (now : Nat)
  | trigger (entity : Entity) (event : Event) (createdBy : String) (now : Nat)
deriving DecidableEq, Repr

/-- The entity an operation addresses. -/
def Op.entity : Op → Entity
  | .start e _ _ _ => e
  | .trigger e _ _ _ => e

/-- The `time.Now()` instant of an operation. -/
def Op.now : Op → Nat
  | .start _ _ _ t => t
  | .trigger _ _ _ t => t

/-- Apply one engine call to the storage, keeping the updated storage. -/
def FSM.runOp (f : FSM) (m : MemoryStorage) : Op → MemoryStorage
  | .start e s a t => (f.Start m e s a t).1
  | .trigger e ev a t => (f.Trigger m e ev a t).1

/-- Apply a list of engine calls in order. -/
def FSM.runTrace (f : FSM) (m : MemoryStorage) : List Op → MemoryStorage
  | [] => m
  | op :: ops => f.runTrace (f.runOp m op) ops

/-- Whether a record is a genesis record: sentinel empty `from` and the
reserved `start` pseudo-event. -/
def isGenesis (t : EntityTransition) : Bool :=
  t.Transition.From.Name == "" && t.Transition.Event.Name == "start"

/-- The operation times are nondecreasing along the trace, starting no
earlier than `lo`. -/
def timesMono : Nat → List Op → Bool
  | _, [] => true
  | lo, op :: ops => decide (lo ≤ op.now) && timesMono op.now ops

/-- Number of `start` calls for entity `e` in the trace whose initial state
passes validation (these are exactly the calls that append a genesis
record for `e`). -/
def succStartsFor (f : FSM) (e : Entity) (tr : List Op) : Nat :=
  tr.countP (fun op =>
    match op with
    | .start e2 s _ _ => sameEntity e2 e && stateDeclared f s
    | .trigger _ _ _ _ => false)

/-- The genesis record `Start` appends. -/
def genesisRec (e : Entity) (s : State) (a : String) (now : Nat) : EntityTransition :=
  { Entity := e
    Transition :=
      { From := { Name := "" }, To := s, Event := { Name := "start" }
        CreatedAt := now, CreatedBy := a } }

/-- Whether an operation is a `Start` for entity `e` whose initial state
passes validation. -/
def opStartsFor (f : FSM) (e : Entity) : Op → Bool
  | .start e2 s _ _ => sameEntity e2 e && stateDeclared f s
  | .trigger _ _ _ _ => false

/-- The per-entity history invariant maintained by every engine call: each
record's target state is declared, and the oldest record (when one exists) is
a genesis record. -/
def EntityInv (f : FSM) (e : Entity) (m : MemoryStorage) : Prop :=
  (∀ t ∈ recordsFor m e, stateDeclared f t.Transition.To = true) ∧
  (∀ t, (recordsFor m e).head? = some t → isGenesis t = true)

/-- The largest operation time: where the time lower bound stands after the
trace. -/
def traceEnd : Nat → List Op → Nat
  | lo, [] => lo
  | _, op :: ops => traceEnd op.now ops

/-- Decidable equality for `Except`, so concrete runs can be checked by
`decide`. -/
instance {ε α : Type} [DecidableEq ε] [DecidableEq α] : DecidableEq (Except ε α) :=
  fun x y =>
    match x, y with
    | .ok a, .ok b =>
      if h : a = b then isTrue (by rw [h]) else
        isFalse (by intro hc; cases hc; exact h rfl)
    | .ok _, .error _ => isFalse (by intro hc; cases hc)
    | .error _, .ok _ => isFalse (by intro hc; cases hc)
    | .error a, .error b =>
      if h : a = b then isTrue (by rw [h]) else
        isFalse (by intro hc; cases hc; exact h rfl)

instance (f : FSM) : Decidable f.WellFormed := by
  unfold FSM.WellFormed
  infer_instance

/-! ## Concrete workflow used by witnesses and counterexamples
(the document-review scenario of the spec). -/

/-- The declared states of the document workflow. -/
def docStates : List State :=
  [⟨"draft"⟩, ⟨"submitted"⟩, ⟨"approved"⟩, ⟨"rejected"⟩, ⟨"published"⟩]

/-- The declared events of the document workflow. -/
def docEvents : List Event :=
  [⟨"submit"⟩, ⟨"approve"⟩, ⟨"reject"⟩, ⟨"publish"⟩, ⟨"revise"⟩]

/-- The declared transitions of the document workflow. -/
def docTransitions : List Transition :=
  [⟨⟨"draft"⟩, ⟨"submitted"⟩, ⟨"submit"⟩, 0, ""⟩,
   ⟨⟨"submitted"⟩, ⟨"approved"⟩, ⟨"approve"⟩, 0, ""⟩,
   ⟨⟨"submitted"⟩, ⟨"rejected"⟩, ⟨"reject"⟩, 0, ""⟩,
   ⟨⟨"approved"⟩, ⟨"published"⟩, ⟨"publish"⟩, 0, ""⟩,
   ⟨⟨"rejected"⟩, ⟨"draft"⟩, ⟨"revise"⟩, 0, ""⟩]

/-- The document workflow engine. -/
def docFsm : FSM := ⟨docStates, docEvents, docTransitions⟩

/-- The same workflow with a duplicate (from, event) pair declared twice with
different targets: `draft`–`submit` maps first to `submitted`, then to
`rejected`. -/
def dupFsm : FSM :=
  ⟨docStates, docEvents,
   [⟨⟨"draft"⟩, ⟨"submitted"⟩, ⟨"submit"⟩, 0, ""⟩,
    ⟨⟨"draft"⟩, ⟨"rejected"⟩, ⟨"submit"⟩, 0, ""⟩]⟩

/-- The tracked document entity. -/
def eDoc : Entity := ⟨"document", "doc-1"⟩

/-- A second, distinct entity. -/
def eOther : Entity := ⟨"document", "doc-2"⟩

/-! ## Basic facts about the embedded operations -/

theorem sameEntity_refl (a : Entity) : sameEntity a a = true := by
  simp [sameEntity]

theorem sameEntity_eq_true_iff {a b : Entity} : sameEntity a b = true ↔ a = b := by
  cases a; cases b
  simp [sameEntity, Entity.mk.injEq]

theorem find?_reverse_eq_getLast?_filter {α : Type} (p : α → Bool) (l : List α) :
    l.reverse.find? p = (l.filter p).getLast? := by
  induction l using List.reverseRecOn with
  | nil => simp
  | append_singleton l a ih =>
    rw [List.reverse_append]
    simp only [List.reverse_singleton, List.singleton_append]
    by_cases h : p a
    · rw [List.find?_cons_of_pos _ h, List.filter_append]
      simp only [List.filter_cons, h, if_pos, List.filter_nil]
      rw [List.getLast?_concat]
    · rw [List.find?_cons_of_neg _ h, List.filter_append]
      simp only [List.filter_cons, h, List.filter_nil, List.append_nil,
        Bool.false_eq_true, if_false]
      exact ih

theorem GetCurrentState_eq (m : MemoryStorage) (e : Entity) :
    m.GetCurrentState e =
      match (recordsFor m e).getLast? with
      | some t => .ok t.Transition.To
      | none => .error .entityNotFound := by
  unfold MemoryStorage.GetCurrentState recordsFor
  rw [find?_reverse_eq_getLast?_filter]

theorem recordsFor_save (m : MemoryStorage) (et : EntityTransition) (e : Entity) :
    recordsFor (m.SaveTransition et) e =
      recordsFor m e ++ (if sameEntity et.Entity e then [et] else []) := by
  by_cases h : sameEntity et.Entity e
  · simp [recordsFor, MemoryStorage.SaveTransition, List.filter_append, h]
  · simp [recordsFor, MemoryStorage.SaveTransition, List.filter_append, h]

theorem GetCurrentState_save_match (m : MemoryStorage) (et : EntityTransition)
    (e : Entity) (h : sameEntity et.Entity e = true) :
    (m.SaveTransition et).GetCurrentState e = .ok et.Transition.To := by
  rw [GetCurrentState_eq, recordsFor_save, h]
  simp [List.getLast?_concat]

theorem GetCurrentState_save_other (m : MemoryStorage) (et : EntityTransition)
    (e : Entity) (h : sameEntity et.Entity e = false) :
    (m.SaveTransition et).GetCurrentState e = m.GetCurrentState e := by
  rw [GetCurrentState_eq, GetCurrentState_eq, recordsFor_save, h]
  simp

theorem GetCurrentState_ok_iff (m : MemoryStorage) (e : Entity) :
    (∃ s, m.GetCurrentState e = .ok s) ↔ recordsFor m e ≠ [] := by
  rw [GetCurrentState_eq]
  cases h : (recordsFor m e).getLast? with
  | none =>
    simp only [List.getLast?_eq_none_iff] at h
    simp [h]
  | some t =>
    have : recordsFor m e ≠ [] := by
      intro hnil
      rw [hnil] at h
      simp at h
    simp [this]

theorem GetCurrentState_err_iff (m : MemoryStorage) (e : Entity) :
    m.GetCurrentState e = .error .entityNotFound ↔ recordsFor m e = [] := by
  rw [GetCurrentState_eq]
  cases h : (recordsFor m e).getLast? with
  | none =>
    simp only [List.getLast?_eq_none_iff] at h
    simp [h]
  | some t =>
    have : recordsFor m e ≠ [] := by
      intro hnil
      rw [hnil] at h
      simp at h
    simp [this]

theorem validateState_ok_iff (s : State) (states : List State) :
    validateState s states = .ok () ↔
      (states.any (fun x => x.Name == s.Name)) = true := by
  unfold validateState
  by_cases h : states.any (fun x => x.Name == s.Name) <;> simp [h]

theorem validateState_err (s : State) (states : List State)
    (h : (states.any (fun x => x.Name == s.Name)) = false) :
    validateState s states = .error (.invalidState s.Name) := by
  unfold validateState
  simp [h]

theorem validateEvent_ok_iff (ev : Event) (events : List Event) :
    validateEvent ev events = .ok () ↔
      (events.any (fun x => x.Name == ev.Name)) = true := by
  unfold validateEvent
  by_cases h : events.any (fun x => x.Name == ev.Name) <;> simp [h]

theorem validateEvent_err (ev : Event) (events : List Event)
    (h : (events.any (fun x => x.Name == ev.Name)) = false) :
    validateEvent ev events = .error (.invalidEvent ev.Name) := by
  unfold validateEvent
  simp [h]

/-! ## Lookup characterization -/

theorem findNextStateLoop_eq_lookupSpec (s : State) (ev : Event) :
    ∀ ts, findNextStateLoop s ev ts = lookupSpec ts s ev
  | [] => rfl
  | t :: ts => by
    simp only [findNextStateLoop, lookupSpec, List.find?_cons]
    by_cases h : (t.From.Name == s.Name && t.Event.Name == ev.Name)
    · simp [h]
    · simp only [h, Bool.false_eq_true, if_false]
      exact findNextStateLoop_eq_lookupSpec s ev ts

theorem findNextStateLoop_first (s : State) (ev : Event) (t : Transition)
    (ht : t.From.Name = s.Name ∧ t.Event.Name = ev.Name) :
    ∀ l1 l2, (∀ u ∈ l1, ¬(u.From.Name = s.Name ∧ u.Event.Name = ev.Name)) →
      findNextStateLoop s ev (l1 ++ t :: l2) = .ok t.To
  | [], l2, _ => by
    simp [findNextStateLoop, ht.1, ht.2]
  | u :: l1, l2, hfirst => by
    have hu : ¬(u.From.Name = s.Name ∧ u.Event.Name = ev.Name) :=
      hfirst u (List.mem_cons_self u l1)
    have hcond : (u.From.Name == s.Name && u.Event.Name == ev.Name) = false := by
      rcases Bool.eq_false_or_eq_true
          (u.From.Name == s.Name && u.Event.Name == ev.Name) with h | h
      · exfalso
        simp only [Bool.and_eq_true, beq_iff_eq] at h
        exact hu h
      · exact h
    simp only [List.cons_append, findNextStateLoop, hcond, Bool.false_eq_true, if_false]
    exact findNextStateLoop_first s ev t ht l1 l2
      (fun v hv => hfirst v (List.mem_cons_of_mem u hv))

theorem findNextStateLoop_none (s : State) (ev : Event) :
    ∀ ts, (∀ u ∈ ts, ¬(u.From.Name = s.Name ∧ u.Event.Name = ev.Name)) →
      findNextStateLoop s ev ts = .error (.invalidTransition s.Name ev.Name)
  | [], _ => rfl
  | u :: ts, hno => by
    have hu : ¬(u.From.Name = s.Name ∧ u.Event.Name = ev.Name) :=
      hno u (List.mem_cons_self u ts)
    have hcond : (u.From.Name == s.Name && u.Event.Name == ev.Name) = false := by
      rcases Bool.eq_false_or_eq_true
          (u.From.Name == s.Name && u.Event.Name == ev.Name) with h | h
      · exfalso
        simp only [Bool.and_eq_true, beq_iff_eq] at h
        exact hu h
      · exact h
    simp only [findNextStateLoop, hcond, Bool.false_eq_true, if_false]
    exact findNextStateLoop_none s ev ts
      (fun v hv => hno v (List.mem_cons_of_mem u hv))

theorem findNextStateLoop_ok (s : State) (ev : Event) :
    ∀ ts x, findNextStateLoop s ev ts = .ok x →
      ∃ t ∈ ts, t.From.Name = s.Name ∧ t.Event.Name = ev.Name ∧ t.To = x
  | [], x, h => by simp [findNextStateLoop] at h
  | t :: ts, x, h => by
    by_cases hc : (t.From.Name == s.Name && t.Event.Name == ev.Name)
    · refine ⟨t, List.mem_cons_self t ts, ?_⟩
      simp only [Bool.and_eq_true, beq_iff_eq] at hc
      simp only [findNextStateLoop, hc.1, hc.2, beq_self_eq_true, Bool.and_self,
        if_true] at h
      cases h
      exact ⟨hc.1, hc.2, rfl⟩
    · simp only [findNextStateLoop, hc, Bool.false_eq_true, if_false] at h
      obtain ⟨u, hu, hprop⟩ := findNextStateLoop_ok s ev ts x h
      exact ⟨u, List.mem_cons_of_mem t hu, hprop⟩

theorem stateDeclared_name (f : FSM) (s s2 : State) (h : s.Name = s2.Name) :
    stateDeclared f s = stateDeclared f s2 := by
  unfold stateDeclared
  rw [h]

theorem stateDeclared_ne_of_not (f : FSM) (s : State)
    (hs : stateDeclared f s = true) (hz : stateDeclared f ⟨""⟩ = false) :
    s.Name ≠ "" := by
  intro hname
  rw [stateDeclared_name f s ⟨""⟩ hname] at hs
  rw [hs] at hz
  cases hz

theorem validateTransitions_ok_iff (states : List State) (events : List Event) :
    ∀ ts, validateTransitions ts states events = .ok () ↔
      ∀ t ∈ ts, validateState t.From states = .ok () ∧
        validateState t.To states = .ok () ∧
        validateEvent t.Event events = .ok ()
  | [] => by simp [validateTransitions]
  | t :: ts => by
    constructor
    · intro h u hu
      cases hFrom : validateState t.From states with
      | error e => rw [validateTransitions, hFrom] at h; cases h
      | ok v =>
        cases v
        cases hTo : validateState t.To states with
        | error e => rw [validateTransitions, hFrom, hTo] at h; cases h
        | ok v =>
          cases v
          cases hEv : validateEvent t.Event events with
          | error e => rw [validateTransitions, hFrom, hTo, hEv] at h; cases h
          | ok v =>
            cases v
            rw [validateTransitions, hFrom, hTo, hEv] at h
            rcases List.mem_cons.mp hu with rfl | hu2
            · exact ⟨hFrom, hTo, hEv⟩
            · exact (validateTransitions_ok_iff states events ts).mp h u hu2
    · intro h
      obtain ⟨hFrom, hTo, hEv⟩ := h t (List.mem_cons_self t ts)
      rw [validateTransitions, hFrom, hTo, hEv]
      exact (validateTransitions_ok_iff states events ts).mpr
        (fun u hu => h u (List.mem_cons_of_mem t hu))

/-! ## Step lemmas for single operations -/

theorem Start_validateState_err (f : FSM) (m : MemoryStorage) (e : Entity)
    (s : State) (a : String) (now : Nat) (err : Err)
    (h : validateState s f.states = .error err) :
    f.Start m e s a now = (m, .error err) := by
  unfold FSM.Start
  rw [h]

theorem Start_validateState_ok (f : FSM) (m : MemoryStorage) (e : Entity)
    (s : State) (a : String) (now : Nat)
    (h : validateState s f.states = .ok ()) :
    f.Start m e s a now =
      (m.SaveTransition
        { Entity := e
          Transition :=
            { From := { Name := "" }, To := s, Event := { Name := "start" }
              CreatedAt := now, CreatedBy := a } }, .ok ()) := by
  unfold FSM.Start
  rw [h]

theorem Trigger_notFound (f : FSM) (m : MemoryStorage) (e : Entity)
    (ev : Event) (a : String) (now : Nat) (err : Err)
    (h : m.GetCurrentState e = .error err) :
    f.Trigger m e ev a now = (m, .error (.failedToGetCurrentState err)) := by
  unfold FSM.Trigger
  rw [h]

theorem Trigger_invalidEvent (f : FSM) (m : MemoryStorage) (e : Entity)
    (ev : Event) (a : String) (now : Nat) (s : State) (err : Err)
    (hcur : m.GetCurrentState e = .ok s)
    (hev : validateEvent ev f.events = .error err) :
    f.Trigger m e ev a now = (m, .error err) := by
  unfold FSM.Trigger
  rw [hcur, hev]

theorem Trigger_invalidTransition (f : FSM) (m : MemoryStorage) (e : Entity)
    (ev : Event) (a : String) (now : Nat) (s : State) (err : Err)
    (hcur : m.GetCurrentState e = .ok s)
    (hev : validateEvent ev f.events = .ok ())
    (hfind : f.findNextState s ev = .error err) :
    f.Trigger m e ev a now = (m, .error err) := by
  simp [FSM.Trigger, hcur, hev, hfind]

theorem Trigger_ok (f : FSM) (m : MemoryStorage) (e : Entity)
    (ev : Event) (a : String) (now : Nat) (s ns : State)
    (hcur : m.GetCurrentState e = .ok s)
    (hev : validateEvent ev f.events = .ok ())
    (hfind : f.findNextState s ev = .ok ns) :
    f.Trigger m e ev a now =
      (m.SaveTransition
        { Entity := e
          Transition :=
            { From := s, To := ns, Event := ev
              CreatedAt := now, CreatedBy := a } }, .ok ()) := by
  simp [FSM.Trigger, hcur, hev, hfind]

theorem start_self_cases (f : FSM) (m : MemoryStorage) (e : Entity) (s : State)
    (a : String) (now : Nat) :
    (stateDeclared f s = false ∧ f.runOp m (.start e s a now) = m) ∨
    (stateDeclared f s = true ∧
      f.runOp m (.start e s a now) = m.SaveTransition (genesisRec e s a now)) := by
  rcases Bool.eq_false_or_eq_true (stateDeclared f s) with h | h
  · right
    refine ⟨h, ?_⟩
    have hv : validateState s f.states = .ok () := (validateState_ok_iff s f.states).mpr h
    simp [FSM.runOp, Start_validateState_ok f m e s a now hv, genesisRec]
  · left
    refine ⟨h, ?_⟩
    have hv : validateState s f.states = .error (.invalidState s.Name) :=
      validateState_err s f.states h
    simp [FSM.runOp, Start_validateState_err f m e s a now _ hv]

theorem trigger_self_cases (f : FSM) (m : MemoryStorage) (e : Entity)
    (ev : Event) (a : String) (now : Nat) :
    f.runOp m (.trigger e ev a now) = m ∨
    ∃ cur ns, m.GetCurrentState e = .ok cur ∧ f.findNextState cur ev = .ok ns ∧
      f.runOp m (.trigger e ev a now) =
        m.SaveTransition
          { Entity := e
            Transition :=
              { From := cur, To := ns, Event := ev
                CreatedAt := now, CreatedBy := a } } := by
  cases hcur : m.GetCurrentState e with
  | error err =>
    left
    simp [FSM.runOp, Trigger_notFound f m e ev a now err hcur]
  | ok cur =>
    cases hev : validateEvent ev f.events with
    | error err =>
      left
      simp [FSM.runOp, Trigger_invalidEvent f m e ev a now cur err hcur hev]
    | ok u =>
      cases u
      cases hfind : f.findNextState cur ev with
      | error err =>
        left
        simp [FSM.runOp, Trigger_invalidTransition f m e ev a now cur err hcur hev hfind]
      | ok ns =>
        right
        exact ⟨cur, ns, rfl, hfind,
          by simp only [FSM.runOp]
             rw [Trigger_ok f m e ev a now cur ns hcur hev hfind]⟩

theorem recordsFor_runOp_other (f : FSM) (m : MemoryStorage) (op : Op)
    (e : Entity) (h : sameEntity op.entity e = false) :
    recordsFor (f.runOp m op) e = recordsFor m e := by
  cases op with
  | start e2 s a now =>
    simp only [Op.entity] at h
    rcases start_self_cases f m e2 s a now with ⟨_, heq⟩ | ⟨_, heq⟩
    · rw [heq]
    · rw [heq, recordsFor_save]
      simp [genesisRec, h]
  | trigger e2 ev a now =>
    simp only [Op.entity] at h
    rcases trigger_self_cases f m e2 ev a now with heq | ⟨cur, ns, _, _, heq⟩
    · rw [heq]
    · rw [heq, recordsFor_save]
      simp [h]

theorem runOp_transitions_cases (f : FSM) (m : MemoryStorage) (op : Op) :
    f.runOp m op = m ∨
    ∃ et, f.runOp m op = m.SaveTransition et ∧ et.Transition.CreatedAt = op.now := by
  cases op with
  | start e2 s a now =>
    rcases start_self_cases f m e2 s a now with ⟨_, heq⟩ | ⟨_, heq⟩
    · exact Or.inl heq
    · exact Or.inr ⟨genesisRec e2 s a now, heq, rfl⟩
  | trigger e2 ev a now =>
    rcases trigger_self_cases f m e2 ev a now with heq | ⟨cur, ns, _, _, heq⟩
    · exact Or.inl heq
    · exact Or.inr ⟨_, heq, rfl⟩

theorem mem_of_getLast?_some {α : Type} {l : List α} {a : α}
    (h : l.getLast? = some a) : a ∈ l := by
  have hmem : a ∈ l.getLast? := Option.mem_def.mpr h
  have hdrop := List.dropLast_append_getLast? a hmem
  rw [← hdrop]
  exact List.mem_append_right _ (by simp)

theorem GetCurrentState_ok_elim (m : MemoryStorage) (e : Entity) (cur : State)
    (h : m.GetCurrentState e = .ok cur) :
    ∃ r, (recordsFor m e).getLast? = some r ∧ r.Transition.To = cur := by
  rw [GetCurrentState_eq] at h
  cases hg : (recordsFor m e).getLast? with
  | none => rw [hg] at h; cases h
  | some r =>
    rw [hg] at h
    cases h
    exact ⟨r, rfl, rfl⟩

theorem head?_append_single {α : Type} (l : List α) (x : α) (h : l ≠ []) :
    (l ++ [x]).head? = l.head? := by
  cases l with
  | nil => exact absurd rfl h
  | cons a t => simp

theorem EntityInv_empty (f : FSM) (e : Entity) : EntityInv f e ⟨[]⟩ := by
  constructor
  · intro t ht
    simp [recordsFor] at ht
  · intro t ht
    simp [recordsFor] at ht

theorem EntityInv_runOp (f : FSM) (hwf : f.WellFormed) (e : Entity)
    (hz : stateDeclared f ⟨""⟩ = false) (m : MemoryStorage) (op : Op)
    (hinv : EntityInv f e m) :
    EntityInv f e (f.runOp m op) ∧
    (recordsFor (f.runOp m op) e).countP isGenesis =
      (recordsFor m e).countP isGenesis +
        (if opStartsFor f e op then 1 else 0) := by
  cases op with
  | start e2 s a now =>
    rcases start_self_cases f m e2 s a now with ⟨hd, heq⟩ | ⟨hd, heq⟩
    · rw [heq]
      exact ⟨hinv, by simp [opStartsFor, hd]⟩
    · rcases Bool.eq_false_or_eq_true (sameEntity e2 e) with hsame | hsame
      · have hrec : recordsFor (f.runOp m (.start e2 s a now)) e =
            recordsFor m e ++ [genesisRec e2 s a now] := by
          rw [heq, recordsFor_save]
          simp [genesisRec, hsame]
        constructor
        · constructor
          · intro t ht
            rw [hrec] at ht
            rcases List.mem_append.mp ht with h1 | h1
            · exact hinv.1 t h1
            · simp only [List.mem_singleton] at h1
              subst h1
              simpa [genesisRec] using hd
          · intro t ht
            rw [hrec] at ht
            cases hrm : recordsFor m e with
            | nil =>
              rw [hrm] at ht
              simp only [List.nil_append, List.head?_cons, Option.some.injEq] at ht
              subst ht
              simp [isGenesis, genesisRec]
            | cons r rs =>
              rw [hrm, head?_append_single _ _ (by simp)] at ht
              rw [← hrm] at ht
              exact hinv.2 t (by rw [hrm]; rw [hrm] at ht; exact ht)
        · rw [hrec, List.countP_append]
          simp [opStartsFor, hsame, hd, isGenesis, genesisRec]
      · have hrec : recordsFor (f.runOp m (.start e2 s a now)) e = recordsFor m e := by
          rw [heq, recordsFor_save]
          simp [genesisRec, hsame]
        refine ⟨⟨?_, ?_⟩, ?_⟩
        · intro t ht
          rw [hrec] at ht
          exact hinv.1 t ht
        · intro t ht
          rw [hrec] at ht
          exact hinv.2 t ht
        · rw [hrec]
          simp [opStartsFor, hsame]
  | trigger e2 ev a now =>
    rcases trigger_self_cases f m e2 ev a now with heq | ⟨cur, ns, hcur, hfind, heq⟩
    · rw [heq]
      exact ⟨hinv, by simp [opStartsFor]⟩
    · rcases Bool.eq_false_or_eq_true (sameEntity e2 e) with hsame | hsame
      · have he2 : e2 = e := sameEntity_eq_true_iff.mp hsame
        subst he2
        obtain ⟨r, hlast, hto⟩ := GetCurrentState_ok_elim m e2 cur hcur
        have hrmem : r ∈ recordsFor m e2 := mem_of_getLast?_some hlast
        have hcurdecl : stateDeclared f cur = true := by
          rw [← hto]
          exact hinv.1 r hrmem
        have hcurname : cur.Name ≠ "" := stateDeclared_ne_of_not f cur hcurdecl hz
        have hnonempty : recordsFor m e2 ≠ [] := by
          intro hnil
          rw [hnil] at hlast
          simp at hlast
        obtain ⟨t, htmem, _, _, htto⟩ := findNextStateLoop_ok cur ev f.transitions ns hfind
        have hnsdecl : stateDeclared f ns = true := by
          rw [← htto]
          exact (hwf t htmem).2.1
        have hrec : recordsFor (f.runOp m (.trigger e2 ev a now)) e2 =
            recordsFor m e2 ++
              [{ Entity := e2
                 Transition :=
                   { From := cur, To := ns, Event := ev
                     CreatedAt := now, CreatedBy := a } }] := by
          rw [heq, recordsFor_save]
          simp [hsame]
        have hng : isGenesis
            { Entity := e2
              Transition :=
                { From := cur, To := ns, Event := ev
                  CreatedAt := now, CreatedBy := a } } = false := by
          simp [isGenesis, hcurname]
        constructor
        · constructor
          · intro t2 ht2
            rw [hrec] at ht2
            rcases List.mem_append.mp ht2 with h1 | h1
            · exact hinv.1 t2 h1
            · simp only [List.mem_singleton] at h1
              subst h1
              exact hnsdecl
          · intro t2 ht2
            rw [hrec, head?_append_single _ _ hnonempty] at ht2
            exact hinv.2 t2 ht2
        · rw [hrec, List.countP_append]
          simp [opStartsFor, hng]
      · have hrec : recordsFor (f.runOp m (.trigger e2 ev a now)) e = recordsFor m e := by
          rw [heq, recordsFor_save]
          simp [hsame]
        refine ⟨⟨?_, ?_⟩, ?_⟩
        · intro t ht
          rw [hrec] at ht
          exact hinv.1 t ht
        · intro t ht
          rw [hrec] at ht
          exact hinv.2 t ht
        · rw [hrec]
          simp [opStartsFor]

theorem EntityInv_runTrace (f : FSM) (hwf : f.WellFormed) (e : Entity)
    (hz : stateDeclared f ⟨""⟩ = false) :
    ∀ (tr : List Op) (m : MemoryStorage), EntityInv f e m →
      EntityInv f e (f.runTrace m tr) ∧
      (recordsFor (f.runTrace m tr) e).countP isGenesis =
        (recordsFor m e).countP isGenesis + succStartsFor f e tr
  | [], m, hinv => ⟨hinv, by simp [FSM.runTrace, succStartsFor]⟩
  | op :: tr, m, hinv => by
    obtain ⟨hinv2, hcount2⟩ := EntityInv_runOp f hwf e hz m op hinv
    obtain ⟨hinv3, hcount3⟩ := EntityInv_runTrace f hwf e hz tr (f.runOp m op) hinv2
    refine ⟨by simpa [FSM.runTrace] using hinv3, ?_⟩
    show (recordsFor (f.runTrace (f.runOp m op) tr) e).countP isGenesis = _
    rw [hcount3, hcount2]
    have hcons : succStartsFor f e (op :: tr) =
        succStartsFor f e tr + (if opStartsFor f e op then 1 else 0) := by
      simp [succStartsFor, opStartsFor, List.countP_cons]
    rw [hcons]
    omega

theorem runTrace_sorted (f : FSM) :
    ∀ (tr : List Op) (lo : Nat) (m : MemoryStorage),
      timesMono lo tr = true →
      (∀ r ∈ m.transitions, r.Transition.CreatedAt ≤ lo) →
      m.transitions.Pairwise
        (fun x y => x.Transition.CreatedAt ≤ y.Transition.CreatedAt) →
      (f.runTrace m tr).transitions.Pairwise
        (fun x y => x.Transition.CreatedAt ≤ y.Transition.CreatedAt) ∧
      (∀ r ∈ (f.runTrace m tr).transitions,
        r.Transition.CreatedAt ≤ traceEnd lo tr)
  | [], lo, m, _, hb, hp => ⟨hp, hb⟩
  | op :: tr, lo, m, hm, hb, hp => by
    simp only [timesMono, Bool.and_eq_true, decide_eq_true_eq] at hm
    obtain ⟨hlo, hm2⟩ := hm
    have hstep :
        (f.runOp m op).transitions.Pairwise
          (fun x y => x.Transition.CreatedAt ≤ y.Transition.CreatedAt) ∧
        (∀ r ∈ (f.runOp m op).transitions, r.Transition.CreatedAt ≤ op.now) := by
      rcases runOp_transitions_cases f m op with heq | ⟨et, heq, htime⟩
      · rw [heq]
        exact ⟨hp, fun r hr => le_trans (hb r hr) hlo⟩
      · rw [heq]
        constructor
        · apply List.pairwise_append.mpr
          refine ⟨hp, by simp, ?_⟩
          intro x hx y hy
          simp only [List.mem_singleton] at hy
          subst hy
          rw [htime]
          exact le_trans (hb x hx) hlo
        · intro r hr
          simp only [MemoryStorage.SaveTransition, List.mem_append,
            List.mem_singleton] at hr
          rcases hr with h1 | h1
          · exact le_trans (hb r h1) hlo
          · subst h1
            rw [htime]
    simp only [FSM.runTrace, traceEnd]
    exact runTrace_sorted f tr op.now (f.runOp m op) hm2 hstep.2 hstep.1

theorem findNextState_eq_lookupSpec (f : FSM) (s : State) (ev : Event) :
    f.findNextState s ev = lookupSpec f.transitions s ev :=
  findNextStateLoop_eq_lookupSpec s ev f.transitions

/-! ## Claim theorems -/

/-- C2: the transition lookup — shared by `Trigger`, `CanTrigger` and
`GetNextState` through `findNextState` — scans the declared transition list
in declaration order and returns the `to`-state of the first entry whose
`from` and `event` both equal the query (so with duplicate (from, event)
declarations the earliest one decides), and yields an *invalid transition*
error when no entry matches; stated as agreement of the source lookup with
the spec-worded first-match function `lookupSpec`, for `GetNextState`,
`findNextState`, and the lookup step inside `CanTrigger`. -/
theorem C2_lookup_first_match (f : FSM) (s : State) (ev : Event) :
    f.GetNextState s ev = lookupSpec f.transitions s ev ∧
    f.findNextState s ev = lookupSpec f.transitions s ev ∧
    (∀ (m : MemoryStorage) (e : Entity),
      f.CanTrigger m e ev =
        (match m.GetCurrentState e with
         | .ok cur =>
           (match lookupSpec f.transitions cur ev with
            | .ok _ => true
            | .error _ => false)
         | .error _ => false)) ∧
    (∀ (m : MemoryStorage) (e : Entity) (a : String) (now : Nat),
      f.Trigger m e ev a now =
        (match m.GetCurrentState e with
         | .error err => (m, .error (.failedToGetCurrentState err))
         | .ok cur =>
           match validateEvent ev f.events with
           | .error err => (m, .error err)
           | .ok _ =>
             match lookupSpec f.transitions cur ev with
             | .error err => (m, .error err)
             | .ok ns =>
               (m.SaveTransition
                 { Entity := e
                   Transition :=
                     { From := cur, To := ns, Event := ev
                       CreatedAt := now, CreatedBy := a } }, .ok ()))) := by
  refine ⟨findNextState_eq_lookupSpec f s ev, findNextState_eq_lookupSpec f s ev, ?_, ?_⟩
  · intro m e
    unfold FSM.CanTrigger
    cases hcur : m.GetCurrentState e with
    | error err => rfl
    | ok cur =>
      dsimp only
      rw [findNextState_eq_lookupSpec f cur ev]
      cases lookupSpec f.transitions cur ev <;> rfl
  · intro m e a now
    unfold FSM.Trigger
    cases hcur : m.GetCurrentState e with
    | error err => rfl
    | ok cur =>
      dsimp only
      cases hev : validateEvent ev f.events with
      | error err => rfl
      | ok u =>
        cases u
        dsimp only
        rw [findNextState_eq_lookupSpec f cur ev]

/-- C3: `New` succeeds exactly when the states, events and transitions lists
are all nonempty, the storage is present, and every declared transition's
from-state, to-state and event are declared; in particular no other
structural condition (duplicates included) makes construction fail. -/
theorem C3_new_validation_iff (states : List State) (events : List Event)
    (transitions : List Transition) (storage : Option MemoryStorage) :
    (∃ f, New states events transitions storage = .ok f) ↔
      (states ≠ [] ∧ events ≠ [] ∧ transitions ≠ [] ∧ storage ≠ none ∧
        ∀ t ∈ transitions,
          (states.any (fun x => x.Name == t.From.Name)) = true ∧
          (states.any (fun x => x.Name == t.To.Name)) = true ∧
          (events.any (fun x => x.Name == t.Event.Name)) = true) := by
  constructor
  · rintro ⟨f, hf⟩
    unfold New at hf
    by_cases h1 : (states.length == 0) = true
    · rw [if_pos h1] at hf
      cases hf
    rw [if_neg h1] at hf
    by_cases h2 : (events.length == 0) = true
    · rw [if_pos h2] at hf
      cases hf
    rw [if_neg h2] at hf
    by_cases h3 : (transitions.length == 0) = true
    · rw [if_pos h3] at hf
      cases hf
    rw [if_neg h3] at hf
    by_cases h4 : (storage.isNone = true)
    · rw [if_pos h4] at hf
      cases hf
    rw [if_neg h4] at hf
    cases hval : validateTransitions transitions states events with
    | error err =>
      rw [hval] at hf
      cases hf
    | ok u =>
      cases u
      refine ⟨?_, ?_, ?_, ?_, ?_⟩
      · intro hnil
        subst hnil
        exact h1 rfl
      · intro hnil
        subst hnil
        exact h2 rfl
      · intro hnil
        subst hnil
        exact h3 rfl
      · intro hnil
        subst hnil
        exact h4 rfl
      · intro t ht
        have := (validateTransitions_ok_iff states events transitions).mp hval t ht
        exact ⟨(validateState_ok_iff t.From states).mp this.1,
          (validateState_ok_iff t.To states).mp this.2.1,
          (validateEvent_ok_iff t.Event events).mp this.2.2⟩
  · rintro ⟨h1, h2, h3, h4, h5⟩
    have hl1 : (states.length == 0) = false := by
      cases states with
      | nil => exact absurd rfl h1
      | cons a l => rfl
    have hl2 : (events.length == 0) = false := by
      cases events with
      | nil => exact absurd rfl h2
      | cons a l => rfl
    have hl3 : (transitions.length == 0) = false := by
      cases transitions with
      | nil => exact absurd rfl h3
      | cons a l => rfl
    have hl4 : storage.isNone = false := by
      cases storage with
      | none => exact absurd rfl h4
      | some ms => rfl
    have hval : validateTransitions transitions states events = .ok () := by
      apply (validateTransitions_ok_iff states events transitions).mpr
      intro t ht
      exact ⟨(validateState_ok_iff t.From states).mpr (h5 t ht).1,
        (validateState_ok_iff t.To states).mpr (h5 t ht).2.1,
        (validateEvent_ok_iff t.Event events).mpr (h5 t ht).2.2⟩
    refine ⟨⟨states, events, transitions⟩, ?_⟩
    unfold New
    rw [hl1, hl2, hl3, hl4, hval]
    rfl

/-- C8: `CanTrigger` has no error channel (it returns a plain boolean), and
it returns `true` exactly when reading the entity's current state succeeds
and the transition lookup from that state on the event succeeds; every error
condition therefore yields `false`. -/
theorem C8_canTrigger_iff (f : FSM) (m : MemoryStorage) (e : Entity)
    (ev : Event) :
    f.CanTrigger m e ev = true ↔
      ∃ s ns, m.GetCurrentState e = .ok s ∧ f.findNextState s ev = .ok ns := by
  unfold FSM.CanTrigger
  cases hcur : m.GetCurrentState e with
  | error err => simp
  | ok s =>
    cases hf : f.findNextState s ev with
    | error err => simp [hf]
    | ok ns => simp [hf]

/-- C10: `GetTransitions` on an entity with no records succeeds with the
empty sequence, while `GetState` fails with *entity not found* and `Trigger`
fails with the wrapped *entity not found* error. -/
theorem C10_getTransitions_unknown (f : FSM) (m : MemoryStorage) (e : Entity)
    (h : recordsFor m e = []) :
    f.GetTransitions m e = .ok [] ∧
    f.GetState m e = .error .entityNotFound ∧
    (∀ (ev : Event) (a : String) (now : Nat),
      (f.Trigger m e ev a now).2 = .error (.failedToGetCurrentState .entityNotFound)) := by
  have hget : m.GetCurrentState e = .error .entityNotFound :=
    (GetCurrentState_err_iff m e).mpr h
  refine ⟨?_, hget, ?_⟩
  · show Except.ok (recordsFor m e) = Except.ok []
    rw [h]
  · intro ev a now
    rw [Trigger_notFound f m e ev a now .entityNotFound hget]

/-- Witness for C10 at a concrete input: the unknown entity `doc-1` in the
empty storage. -/
theorem C10_getTransitions_unknown_witness :
    recordsFor ⟨[]⟩ eDoc = [] ∧
    docFsm.GetTransitions ⟨[]⟩ eDoc = .ok [] ∧
    docFsm.GetState ⟨[]⟩ eDoc = .error .entityNotFound ∧
    (docFsm.Trigger ⟨[]⟩ eDoc ⟨"submit"⟩ "alice" 3).2 =
      .error (.failedToGetCurrentState .entityNotFound) :=
  ⟨by decide,
   (C10_getTransitions_unknown docFsm ⟨[]⟩ eDoc (by decide)).1,
   (C10_getTransitions_unknown docFsm ⟨[]⟩ eDoc (by decide)).2.1,
   (C10_getTransitions_unknown docFsm ⟨[]⟩ eDoc (by decide)).2.2 ⟨"submit"⟩ "alice" 3⟩

/-- C1 as stated is false: in `dupFsm` the transition
(draft, submit, rejected) is declared, the entity's current state is `draft`,
and `Trigger(submit)` succeeds — but the new current state is `submitted`
(the target of the earlier duplicate declaration), not `rejected`. -/
theorem C1_counterexample :
    (⟨⟨"draft"⟩, ⟨"rejected"⟩, ⟨"submit"⟩, 0, ""⟩ : Transition) ∈ dupFsm.transitions ∧
    (MemoryStorage.mk [genesisRec eDoc ⟨"draft"⟩ "alice" 0]).GetCurrentState eDoc =
      .ok ⟨"draft"⟩ ∧
    (dupFsm.Trigger ⟨[genesisRec eDoc ⟨"draft"⟩ "alice" 0]⟩ eDoc ⟨"submit"⟩ "alice" 1).2 =
      .ok () ∧
    dupFsm.GetState
        (dupFsm.Trigger ⟨[genesisRec eDoc ⟨"draft"⟩ "alice" 0]⟩ eDoc ⟨"submit"⟩ "alice" 1).1
        eDoc = .ok ⟨"submitted"⟩ ∧
    dupFsm.GetState
        (dupFsm.Trigger ⟨[genesisRec eDoc ⟨"draft"⟩ "alice" 0]⟩ eDoc ⟨"submit"⟩ "alice" 1).1
        eDoc ≠ .ok ⟨"rejected"⟩ := by
  refine ⟨by decide, by decide, by decide, by decide, by decide⟩

/-- C1 (amended): for every declared transition (from, event, to) that is the
*earliest-declared* transition for its (from, event) pair — in a well-formed
definition — if the entity's current state is `from`, then `Trigger` succeeds
and the new current state is `to`. -/
theorem C1_trigger_declared (f : FSM) (hwf : f.WellFormed) (t : Transition)
    (l1 l2 : List Transition) (hsplit : f.transitions = l1 ++ t :: l2)
    (hfirst : ∀ u ∈ l1, ¬(u.From.Name = t.From.Name ∧ u.Event.Name = t.Event.Name))
    (m : MemoryStorage) (e : Entity) (a : String) (now : Nat)
    (hcur : m.GetCurrentState e = .ok t.From) :
    (f.Trigger m e t.Event a now).2 = .ok () ∧
    f.GetState (f.Trigger m e t.Event a now).1 e = .ok t.To := by
  have htmem : t ∈ f.transitions := by
    rw [hsplit]
    exact List.mem_append_right l1 (List.mem_cons_self t l2)
  have hev : validateEvent t.Event f.events = .ok () :=
    (validateEvent_ok_iff t.Event f.events).mpr (hwf t htmem).2.2
  have hfind : f.findNextState t.From t.Event = .ok t.To := by
    unfold FSM.findNextState
    rw [hsplit]
    exact findNextStateLoop_first t.From t.Event t ⟨rfl, rfl⟩ l1 l2 hfirst
  rw [Trigger_ok f m e t.Event a now t.From t.To hcur hev hfind]
  refine ⟨rfl, ?_⟩
  show (m.SaveTransition _).GetCurrentState e = _
  rw [GetCurrentState_save_match _ _ _ (sameEntity_refl e)]

/-- Witness for C1 (amended): the first declared transition of the document
workflow, triggered on an entity currently in `draft`. -/
theorem C1_trigger_declared_witness :
    (docFsm.Trigger ⟨[genesisRec eDoc ⟨"draft"⟩ "alice" 0]⟩ eDoc ⟨"submit"⟩ "bob" 1).2 =
      .ok () ∧
    docFsm.GetState
        (docFsm.Trigger ⟨[genesisRec eDoc ⟨"draft"⟩ "alice" 0]⟩ eDoc ⟨"submit"⟩ "bob" 1).1
        eDoc = .ok ⟨"submitted"⟩ :=
  C1_trigger_declared docFsm (by decide)
    ⟨⟨"draft"⟩, ⟨"submitted"⟩, ⟨"submit"⟩, 0, ""⟩ []
    [⟨⟨"submitted"⟩, ⟨"approved"⟩, ⟨"approve"⟩, 0, ""⟩,
     ⟨⟨"submitted"⟩, ⟨"rejected"⟩, ⟨"reject"⟩, 0, ""⟩,
     ⟨⟨"approved"⟩, ⟨"published"⟩, ⟨"publish"⟩, 0, ""⟩,
     ⟨⟨"rejected"⟩, ⟨"draft"⟩, ⟨"revise"⟩, 0, ""⟩]
    (by decide) (by decide)
    ⟨[genesisRec eDoc ⟨"draft"⟩ "alice" 0]⟩ eDoc "bob" 1 (by decide)

/-- C4 as stated is false on undeclared events: with the entity in `draft`
and the undeclared event `bogus` (a (state, event) pair with no declared
transition), `Trigger` fails — but with the *invalid event* error, not the
*invalid transition* error the claim names. -/
theorem C4_counterexample :
    (docFsm.transitions.all
      (fun u => !(u.From.Name == "draft" && u.Event.Name == "bogus"))) = true ∧
    (docFsm.Trigger ⟨[genesisRec eDoc ⟨"draft"⟩ "alice" 0]⟩ eDoc ⟨"bogus"⟩ "alice" 1).2 =
      .error (.invalidEvent "bogus") ∧
    Err.isInvalidTransition (.invalidEvent "bogus") = false ∧
    (docFsm.Trigger ⟨[genesisRec eDoc ⟨"draft"⟩ "alice" 0]⟩ eDoc ⟨"bogus"⟩ "alice" 1).1 =
      ⟨[genesisRec eDoc ⟨"draft"⟩ "alice" 0]⟩ := by
  refine ⟨by decide, by decide, by decide, by decide⟩

/-- C4 (amended): when the entity's current state is `s` and no declared
transition leaves `s` on the event, `Trigger` fails — with the *invalid
transition* error when the event is declared and with the *invalid event*
error when it is not — the storage is unchanged, so no record is appended
and the entity's current state and history are unchanged. -/
theorem C4_trigger_no_transition (f : FSM) (m : MemoryStorage) (e : Entity)
    (ev : Event) (a : String) (now : Nat) (s : State)
    (hcur : m.GetCurrentState e = .ok s)
    (hno : ∀ u ∈ f.transitions, ¬(u.From.Name = s.Name ∧ u.Event.Name = ev.Name)) :
    (f.Trigger m e ev a now).1 = m ∧
    (f.Trigger m e ev a now).2 =
      (if (f.events.any (fun x => x.Name == ev.Name)) then
        .error (.invalidTransition s.Name ev.Name)
      else .error (.invalidEvent ev.Name)) := by
  have hfind : f.findNextState s ev = .error (.invalidTransition s.Name ev.Name) := by
    unfold FSM.findNextState
    exact findNextStateLoop_none s ev f.transitions hno
  rcases Bool.eq_false_or_eq_true (f.events.any (fun x => x.Name == ev.Name)) with hev | hev
  · have hv : validateEvent ev f.events = .ok () :=
      (validateEvent_ok_iff ev f.events).mpr hev
    rw [Trigger_invalidTransition f m e ev a now s _ hcur hv hfind]
    rw [hev]
    exact ⟨rfl, rfl⟩
  · have hv : validateEvent ev f.events = .error (.invalidEvent ev.Name) :=
      validateEvent_err ev f.events hev
    rw [Trigger_invalidEvent f m e ev a now s _ hcur hv]
    rw [hev]
    exact ⟨rfl, rfl⟩

/-- Witness for C4 (amended): the entity in `published` with the declared
event `submit`, for which no transition from `published` exists. -/
theorem C4_trigger_no_transition_witness :
    (docFsm.Trigger ⟨[genesisRec eDoc ⟨"published"⟩ "alice" 0]⟩ eDoc ⟨"submit"⟩ "bob" 1).1 =
      ⟨[genesisRec eDoc ⟨"published"⟩ "alice" 0]⟩ ∧
    (docFsm.Trigger ⟨[genesisRec eDoc ⟨"published"⟩ "alice" 0]⟩ eDoc ⟨"submit"⟩ "bob" 1).2 =
      (if (docFsm.events.any (fun x => x.Name == "submit")) then
        .error (.invalidTransition "published" "submit")
      else .error (.invalidEvent "submit")) :=
  C4_trigger_no_transition docFsm ⟨[genesisRec eDoc ⟨"published"⟩ "alice" 0]⟩ eDoc
    ⟨"submit"⟩ "bob" 1 ⟨"published"⟩ (by decide) (by decide)

theorem pairwise_getLast_max {α : Type} (R : α → α → Prop)
    (hrefl : ∀ a, R a a) :
    ∀ (l : List α) (r : α), l.Pairwise R → l.getLast? = some r →
      ∀ t ∈ l, R t r
  | [], r, _, hlast => by simp at hlast
  | [a], r, _, hlast => by
    simp only [List.getLast?_singleton, Option.some.injEq] at hlast
    subst hlast
    intro t ht
    simp only [List.mem_singleton] at ht
    subst ht
    exact hrefl t
  | a :: b :: l, r, hp, hlast => by
    rw [List.getLast?_cons_cons] at hlast
    intro t ht
    rcases List.mem_cons.mp ht with rfl | ht2
    · exact (List.pairwise_cons.mp hp).1 r (mem_of_getLast?_some hlast)
    · exact pairwise_getLast_max R hrefl (b :: l) r (List.pairwise_cons.mp hp).2
        hlast t ht2

/-- C5: `GetState` returns the `to`-state of the last stored record for the
entity — which, whenever the stored timestamps are nondecreasing (as they are
when records are written at the current instant), is a most recent record by
creation time — and fails with the distinct *entity not found* error when the
entity has no records (never returning the empty state). -/
theorem C5_getState_most_recent (f : FSM) (m : MemoryStorage) (e : Entity)
    (hsorted : m.transitions.Pairwise
      (fun x y => x.Transition.CreatedAt ≤ y.Transition.CreatedAt)) :
    (f.GetState m e =
      match (recordsFor m e).getLast? with
      | some r => .ok r.Transition.To
      | none => .error .entityNotFound) ∧
    (∀ r, (recordsFor m e).getLast? = some r →
      ∀ t ∈ recordsFor m e, t.Transition.CreatedAt ≤ r.Transition.CreatedAt) := by
  constructor
  · exact GetCurrentState_eq m e
  · intro r hlast t ht
    have hsub : (recordsFor m e).Pairwise
        (fun x y => x.Transition.CreatedAt ≤ y.Transition.CreatedAt) :=
      hsorted.sublist (List.filter_sublist m.transitions)
    exact @pairwise_getLast_max EntityTransition
      (fun x y => x.Transition.CreatedAt ≤ y.Transition.CreatedAt)
      (fun a => le_refl _) (recordsFor m e) r hsub hlast t ht

/-- Witness for C5: a two-record history for `doc-1`. -/
theorem C5_getState_most_recent_witness :
    (MemoryStorage.mk
        [genesisRec eDoc ⟨"draft"⟩ "alice" 0,
         ⟨eDoc, ⟨⟨"draft"⟩, ⟨"submitted"⟩, ⟨"submit"⟩, 1, "bob"⟩⟩]).transitions.Pairwise
      (fun x y => x.Transition.CreatedAt ≤ y.Transition.CreatedAt) ∧
    docFsm.GetState
        ⟨[genesisRec eDoc ⟨"draft"⟩ "alice" 0,
          ⟨eDoc, ⟨⟨"draft"⟩, ⟨"submitted"⟩, ⟨"submit"⟩, 1, "bob"⟩⟩]⟩ eDoc =
      (match (recordsFor
          ⟨[genesisRec eDoc ⟨"draft"⟩ "alice" 0,
            ⟨eDoc, ⟨⟨"draft"⟩, ⟨"submitted"⟩, ⟨"submit"⟩, 1, "bob"⟩⟩]⟩ eDoc).getLast? with
       | some r => .ok r.Transition.To
       | none => .error .entityNotFound) :=
  ⟨by decide,
   (C5_getState_most_recent docFsm
     ⟨[genesisRec eDoc ⟨"draft"⟩ "alice" 0,
       ⟨eDoc, ⟨⟨"draft"⟩, ⟨"submitted"⟩, ⟨"submit"⟩, 1, "bob"⟩⟩]⟩ eDoc (by decide)).1⟩

/-- C7: `Start` fails with the *invalid state* error and appends nothing when
the initial state is undeclared; when it is declared, it appends exactly one
genesis record (empty `from`, reserved `start` event, `to` = initialState) —
and it performs no existing-state check, so a second `Start` on the same
entity also succeeds and its initial state becomes the entity's current
state. -/
theorem C7_start_behavior (f : FSM) (m : MemoryStorage) (e : Entity)
    (s : State) (a : String) (now : Nat) :
    (stateDeclared f s = false →
      f.Start m e s a now = (m, .error (.invalidState s.Name))) ∧
    (stateDeclared f s = true →
      f.Start m e s a now = (m.SaveTransition (genesisRec e s a now), .ok ()) ∧
      isGenesis (genesisRec e s a now) = true ∧
      (∀ (s2 : State) (a2 : String) (now2 : Nat), stateDeclared f s2 = true →
        (f.Start (m.SaveTransition (genesisRec e s a now)) e s2 a2 now2).2 = .ok () ∧
        f.GetState (f.Start (m.SaveTransition (genesisRec e s a now)) e s2 a2 now2).1 e =
          .ok s2)) := by
  constructor
  · intro hd
    exact Start_validateState_err f m e s a now _ (validateState_err s f.states hd)
  · intro hd
    have hok := Start_validateState_ok f m e s a now
      ((validateState_ok_iff s f.states).mpr hd)
    refine ⟨by rw [hok]; rfl, by simp [isGenesis, genesisRec], ?_⟩
    intro s2 a2 now2 hd2
    have hok2 := Start_validateState_ok f (m.SaveTransition (genesisRec e s a now))
      e s2 a2 now2 ((validateState_ok_iff s2 f.states).mpr hd2)
    rw [hok2]
    refine ⟨rfl, ?_⟩
    show (_ : MemoryStorage).GetCurrentState e = _
    rw [GetCurrentState_save_match _ _ _ (sameEntity_refl e)]

/-- Witness for C7: starting `doc-1` in `draft`, then starting it again in
`submitted`; and the failing branch via the theorem's first component needs
no witnessing input beyond the declared-state test. -/
theorem C7_start_behavior_witness :
    stateDeclared docFsm ⟨"draft"⟩ = true ∧
    docFsm.Start ⟨[]⟩ eDoc ⟨"draft"⟩ "alice" 0 =
      (MemoryStorage.SaveTransition ⟨[]⟩ (genesisRec eDoc ⟨"draft"⟩ "alice" 0), .ok ()) ∧
    stateDeclared docFsm ⟨"submitted"⟩ = true ∧
    docFsm.GetState
        (docFsm.Start (MemoryStorage.SaveTransition ⟨[]⟩ (genesisRec eDoc ⟨"draft"⟩ "alice" 0))
          eDoc ⟨"submitted"⟩ "bob" 1).1 eDoc = .ok ⟨"submitted"⟩ ∧
    stateDeclared docFsm ⟨"nonexistent"⟩ = false ∧
    docFsm.Start ⟨[]⟩ eDoc ⟨"nonexistent"⟩ "alice" 0 =
      (⟨[]⟩, .error (.invalidState "nonexistent")) :=
  ⟨by decide,
   ((C7_start_behavior docFsm ⟨[]⟩ eDoc ⟨"draft"⟩ "alice" 0).2 (by decide)).1,
   by decide,
   (((C7_start_behavior docFsm ⟨[]⟩ eDoc ⟨"draft"⟩ "alice" 0).2 (by decide)).2.2
     ⟨"submitted"⟩ "bob" 1 (by decide)).2,
   by decide,
   (C7_start_behavior docFsm ⟨[]⟩ eDoc ⟨"nonexistent"⟩ "alice" 0).1 (by decide)⟩

/-- C9: an operation addressed to entity A leaves entity B's recorded history
and current state unchanged (for distinct entity keys); all records returned
by `GetTransitions(A)` belong to A and none to B; and `GetState(A)` depends
only on A's records. -/
theorem C9_entity_isolation (f : FSM) (m : MemoryStorage) (A B : Entity)
    (hne : sameEntity A B = false) (op : Op) (hop : op.entity = A) :
    f.GetTransitions (f.runOp m op) B = f.GetTransitions m B ∧
    f.GetState (f.runOp m op) B = f.GetState m B ∧
    (∀ l, f.GetTransitions m A = .ok l →
      ∀ t ∈ l, sameEntity t.Entity A = true ∧ sameEntity t.Entity B = false) ∧
    (∀ m2 : MemoryStorage, recordsFor m2 A = recordsFor m A →
      f.GetState m2 A = f.GetState m A) := by
  have hopB : sameEntity op.entity B = false := by
    rw [hop]
    exact hne
  have hrec : recordsFor (f.runOp m op) B = recordsFor m B :=
    recordsFor_runOp_other f m op B hopB
  refine ⟨?_, ?_, ?_, ?_⟩
  · show Except.ok (recordsFor (f.runOp m op) B) = Except.ok (recordsFor m B)
    rw [hrec]
  · show (f.runOp m op).GetCurrentState B = m.GetCurrentState B
    rw [GetCurrentState_eq, GetCurrentState_eq, hrec]
  · intro l hl t ht
    have hl2 : l = recordsFor m A := by
      have h3 : (Except.ok (recordsFor m A) : Except Err (List EntityTransition)) =
          Except.ok l := hl
      cases h3
      rfl
    subst hl2
    have hmem : sameEntity t.Entity A = true := (List.mem_filter.mp ht).2
    refine ⟨hmem, ?_⟩
    have hta : t.Entity = A := sameEntity_eq_true_iff.mp hmem
    rw [hta]
    exact hne
  · intro m2 h2
    show m2.GetCurrentState A = m.GetCurrentState A
    rw [GetCurrentState_eq, GetCurrentState_eq, h2]

/-- Witness for C9: a `Trigger` on `doc-1` leaves `doc-2`'s history and state
unchanged. -/
theorem C9_entity_isolation_witness :
    sameEntity eDoc eOther = false ∧
    docFsm.GetTransitions
        (docFsm.runOp
          ⟨[genesisRec eDoc ⟨"draft"⟩ "alice" 0, genesisRec eOther ⟨"draft"⟩ "carol" 1]⟩
          (.trigger eDoc ⟨"submit"⟩ "alice" 2)) eOther =
      docFsm.GetTransitions
        ⟨[genesisRec eDoc ⟨"draft"⟩ "alice" 0, genesisRec eOther ⟨"draft"⟩ "carol" 1]⟩
        eOther ∧
    docFsm.GetState
        (docFsm.runOp
          ⟨[genesisRec eDoc ⟨"draft"⟩ "alice" 0, genesisRec eOther ⟨"draft"⟩ "carol" 1]⟩
          (.trigger eDoc ⟨"submit"⟩ "alice" 2)) eOther =
      docFsm.GetState
        ⟨[genesisRec eDoc ⟨"draft"⟩ "alice" 0, genesisRec eOther ⟨"draft"⟩ "carol" 1]⟩
        eOther :=
  ⟨by decide,
   (C9_entity_isolation docFsm
     ⟨[genesisRec eDoc ⟨"draft"⟩ "alice" 0, genesisRec eOther ⟨"draft"⟩ "carol" 1]⟩
     eDoc eOther (by decide) (.trigger eDoc ⟨"submit"⟩ "alice" 2) rfl).1,
   (C9_entity_isolation docFsm
     ⟨[genesisRec eDoc ⟨"draft"⟩ "alice" 0, genesisRec eOther ⟨"draft"⟩ "carol" 1]⟩
     eDoc eOther (by decide) (.trigger eDoc ⟨"submit"⟩ "alice" 2) rfl).2.1⟩

/-- C6 as stated is false: after two `Start` calls for the same entity the
record sequence contains two genesis records, not exactly one. -/
theorem C6_counterexample :
    docFsm.GetTransitions
        (docFsm.runTrace ⟨[]⟩
          [.start eDoc ⟨"draft"⟩ "alice" 0, .start eDoc ⟨"draft"⟩ "bob" 1]) eDoc =
      .ok [genesisRec eDoc ⟨"draft"⟩ "alice" 0, genesisRec eDoc ⟨"draft"⟩ "bob" 1] ∧
    ([genesisRec eDoc ⟨"draft"⟩ "alice" 0,
      genesisRec eDoc ⟨"draft"⟩ "bob" 1].countP isGenesis) = 2 := by
  refine ⟨by decide, by decide⟩

/-- C6 (amended): over any trace of engine calls from empty storage with
nondecreasing operation times, against a well-formed definition that does not
declare the empty-named state, `GetTransitions(e)` returns the records in
nondecreasing creation-timestamp order with a genesis record as the first
element whenever records exist; and the sequence contains exactly one genesis
record when exactly one `Start` for `e` passed validation (each further
successful `Start` would add another genesis record). -/
theorem C6_transitions_history (f : FSM) (hwf : f.WellFormed)
    (hz : stateDeclared f ⟨""⟩ = false) (tr : List Op) (lo : Nat)
    (htimes : timesMono lo tr = true) (e : Entity)
    (hone : succStartsFor f e tr = 1) :
    ∃ l, f.GetTransitions (f.runTrace ⟨[]⟩ tr) e = .ok l ∧
      l.Pairwise (fun x y => x.Transition.CreatedAt ≤ y.Transition.CreatedAt) ∧
      (∀ t, l.head? = some t → isGenesis t = true) ∧
      l.countP isGenesis = 1 := by
  obtain ⟨hinv, hcount⟩ :=
    EntityInv_runTrace f hwf e hz tr ⟨[]⟩ (EntityInv_empty f e)
  obtain ⟨hpair, _⟩ := runTrace_sorted f tr lo ⟨[]⟩ htimes
    (by intro r hr; simp at hr) (by simp)
  refine ⟨recordsFor (f.runTrace ⟨[]⟩ tr) e, rfl, ?_, hinv.2, ?_⟩
  · exact hpair.sublist (List.filter_sublist _)
  · rw [hcount, hone]
    rfl

/-- Witness for C6 (amended): start `doc-1` in `draft`, submit it, reject it,
revise it — one genesis record, first, with nondecreasing timestamps. -/
theorem C6_transitions_history_witness :
    docFsm.WellFormed ∧
    stateDeclared docFsm ⟨""⟩ = false ∧
    timesMono 0
      [.start eDoc ⟨"draft"⟩ "alice" 0, .trigger eDoc ⟨"submit"⟩ "alice" 1,
       .trigger eDoc ⟨"reject"⟩ "bob" 2, .trigger eDoc ⟨"revise"⟩ "alice" 3] = true ∧
    succStartsFor docFsm eDoc
      [.start eDoc ⟨"draft"⟩ "alice" 0, .trigger eDoc ⟨"submit"⟩ "alice" 1,
       .trigger eDoc ⟨"reject"⟩ "bob" 2, .trigger eDoc ⟨"revise"⟩ "alice" 3] = 1 ∧
    (∃ l, docFsm.GetTransitions
        (docFsm.runTrace ⟨[]⟩
          [.start eDoc ⟨"draft"⟩ "alice" 0, .trigger eDoc ⟨"submit"⟩ "alice" 1,
           .trigger eDoc ⟨"reject"⟩ "bob" 2, .trigger eDoc ⟨"revise"⟩ "alice" 3]) eDoc =
        .ok l ∧
      l.Pairwise (fun x y => x.Transition.CreatedAt ≤ y.Transition.CreatedAt) ∧
      (∀ t, l.head? = some t → isGenesis t = true) ∧
      l.countP isGenesis = 1) :=
  ⟨by decide, by decide, by decide, by decide,
   C6_transitions_history docFsm (by decide) (by decide)
     [.start eDoc ⟨"draft"⟩ "alice" 0, .trigger eDoc ⟨"submit"⟩ "alice" 1,
      .trigger eDoc ⟨"reject"⟩ "bob" 2, .trigger eDoc ⟨"revise"⟩ "alice" 3]
     0 (by decide) eDoc (by decide)⟩

end SimpleFsm
